import Mathlib

/-!
Verification of the separating-axis intersection core
(`intersect.hpp`, `aabb.hpp`/`aabb.cpp`, `frustum.hpp`/`frustum.cpp`).

The C++ code works on `float`; we embed coordinates as rationals `ℚ`.
`project` initialises its running minimum with `+inf` and its running
maximum with `-inf`, so projection values live in the order
`WithBot (WithTop ℚ)`: `⊤` plays the role of `+inf`, `⊥` of `-inf`,
and every actual dot product is a finite rational embedded via `XF.fin`.
Bodies follow the structural shape contract: a list of vertices, a list
of face normals and a list of edge directions.
-/

/-- `glm::vec3`, with rational coordinates. -/
structure Vec3 where
  x : ℚ
  y : ℚ
  z : ℚ
deriving DecidableEq

/-- `glm::dot` for 3-vectors. -/
def dot (a b : Vec3) : ℚ := a.x * b.x + a.y * b.y + a.z * b.z

/-- `glm::cross`. -/
def cross (a b : Vec3) : Vec3 :=
  ⟨a.y * b.z - a.z * b.y, a.z * b.x - a.x * b.z, a.x * b.y - a.y * b.x⟩

/-- Componentwise negation of a 3-vector. -/
def Vec3.neg (a : Vec3) : Vec3 := ⟨-a.x, -a.y, -a.z⟩

/-- Componentwise subtraction of 3-vectors. -/
instance : Sub Vec3 := ⟨fun a b => ⟨a.x - b.x, a.y - b.y, a.z - b.z⟩⟩

/-- The value domain of `project`: rationals extended with `-inf` (`⊥`,
the initial running maximum) and `+inf` (`⊤`, the initial running minimum). -/
abbrev XF : Type := WithBot (WithTop ℚ)

/-- A finite rational viewed inside `XF`. -/
def XF.fin (q : ℚ) : XF := ((q : WithTop ℚ) : XF)

/-- The structural shape contract of `intersect.hpp`: any body exposing
`vertices`, `face_normals` and `edge_directions`. -/
structure Body where
  vertices : List Vec3
  face_normals : List Vec3
  edge_directions : List Vec3
deriving DecidableEq

/-- `project` from `intersect.hpp`: fold `min`/`max` of the dot product of
every vertex with `n`, starting from `+inf` / `-inf`. -/
def project (b : Body) (n : Vec3) : XF × XF :=
  (b.vertices.foldl (fun m p => min m (XF.fin (dot p n))) ⊤,
   b.vertices.foldl (fun m p => max m (XF.fin (dot p n))) ⊥)

/-- `intersect_along` from `intersect.hpp`: closed-interval overlap test of
the two projections, `min1 <= max2 && min2 <= max1`. -/
def intersect_along (b1 b2 : Body) (n : Vec3) : Bool :=
  let p1 := project b1 n
  let p2 := project b2 n
  decide (p1.1 ≤ p2.2) && decide (p2.1 ≤ p1.2)

/-- `intersect` from `intersect.hpp`: try the face normals of `b1`, then the
face normals of `b2`, then all pairwise cross products of edge directions, returning
`false` at the first axis whose overlap test fails (the `&&`/`List.all`
short-circuit mirrors the early `return false` of the loops). -/
def intersect (b1 b2 : Body) : Bool :=
  b1.face_normals.all (fun n => intersect_along b1 b2 n) &&
  b2.face_normals.all (fun n => intersect_along b1 b2 n) &&
  b1.edge_directions.all (fun e1 =>
    b2.edge_directions.all (fun e2 => intersect_along b1 b2 (cross e1 e2)))

/-- The `aabb` adapter (`aabb.cpp`): vertex `i` takes the `max` coordinate on
axis x/y/z according to bits 1/2/4 of `i`; face normals and edge directions
are the three world axes. -/
def mkAabb (mn mx : Vec3) : Body where
  vertices := (List.range 8).map (fun i =>
    ⟨if i &&& 1 ≠ 0 then mx.x else mn.x,
     if i &&& 2 ≠ 0 then mx.y else mn.y,
     if i &&& 4 ≠ 0 then mx.z else mn.z⟩)
  face_normals := [⟨1, 0, 0⟩, ⟨0, 1, 0⟩, ⟨0, 0, 1⟩]
  edge_directions := [⟨1, 0, 0⟩, ⟨0, 1, 0⟩, ⟨0, 0, 1⟩]

/-- The per-axis min/max corner contract of an `aabb`. -/
def wf (mn mx : Vec3) : Prop := mn.x ≤ mx.x ∧ mn.y ≤ mx.y ∧ mn.z ≤ mx.z

instance (mn mx : Vec3) : Decidable (wf mn mx) := by
  unfold wf; infer_instance

/-! ### Basic facts about the extended value domain `XF` -/

lemma xfin_le {p q : ℚ} : XF.fin p ≤ XF.fin q ↔ p ≤ q := by
  simp [XF.fin]

lemma xfin_min (p q : ℚ) : min (XF.fin p) (XF.fin q) = XF.fin (min p q) := by
  simp only [XF.fin, ← WithTop.coe_min, ← WithBot.coe_min]

lemma xfin_max (p q : ℚ) : max (XF.fin p) (XF.fin q) = XF.fin (max p q) := by
  simp only [XF.fin, ← WithTop.coe_max, ← WithBot.coe_max]

lemma xmin_top (x : XF) : min ⊤ x = x := min_eq_right le_top

lemma xmax_bot (x : XF) : max ⊥ x = x := max_eq_right bot_le

lemma xfin_ne_top (q : ℚ) : XF.fin q ≠ ⊤ := by
  have htop : ((⊤ : WithTop ℚ) : XF) = (⊤ : XF) := rfl
  intro h
  rw [XF.fin, ← htop] at h
  exact WithTop.coe_ne_top (WithBot.coe_inj.mp h)

lemma xfin_ne_bot (q : ℚ) : XF.fin q ≠ ⊥ := WithBot.coe_ne_bot

/-! ### Folds over vertex lists -/

lemma foldMin_fin (g : Vec3 → ℚ) : ∀ (l : List Vec3) (q : ℚ),
    l.foldl (fun m p => min m (XF.fin (g p))) (XF.fin q)
      = XF.fin (l.foldl (fun m p => min m (g p)) q) := by
  intro l
  induction l with
  | nil => intro q; rfl
  | cons hd tl ih =>
      intro q
      simp only [List.foldl_cons, xfin_min]
      exact ih (min q (g hd))

lemma foldMax_fin (g : Vec3 → ℚ) : ∀ (l : List Vec3) (q : ℚ),
    l.foldl (fun m p => max m (XF.fin (g p))) (XF.fin q)
      = XF.fin (l.foldl (fun m p => max m (g p)) q) := by
  intro l
  induction l with
  | nil => intro q; rfl
  | cons hd tl ih =>
      intro q
      simp only [List.foldl_cons, xfin_max]
      exact ih (max q (g hd))

lemma qfoldMin_le_init (g : Vec3 → ℚ) : ∀ (l : List Vec3) (q : ℚ),
    l.foldl (fun m p => min m (g p)) q ≤ q := by
  intro l
  induction l with
  | nil => intro q; exact le_refl q
  | cons hd tl ih =>
      intro q
      simp only [List.foldl_cons]
      exact le_trans (ih (min q (g hd))) (min_le_left _ _)

lemma qfoldMax_init_le (g : Vec3 → ℚ) : ∀ (l : List Vec3) (q : ℚ),
    q ≤ l.foldl (fun m p => max m (g p)) q := by
  intro l
  induction l with
  | nil => intro q; exact le_refl q
  | cons hd tl ih =>
      intro q
      simp only [List.foldl_cons]
      exact le_trans (le_max_left _ _) (ih (max q (g hd)))

lemma qfoldMin_le_mem (g : Vec3 → ℚ) : ∀ (l : List Vec3) (q : ℚ) (p : Vec3),
    p ∈ l → l.foldl (fun m p => min m (g p)) q ≤ g p := by
  intro l
  induction l with
  | nil => intro q p hp; cases hp
  | cons hd tl ih =>
      intro q p hp
      simp only [List.foldl_cons]
      rcases List.mem_cons.mp hp with h | h
      · subst h
        exact le_trans (qfoldMin_le_init g tl _) (min_le_right _ _)
      · exact ih _ p h

lemma qfoldMax_mem_le (g : Vec3 → ℚ) : ∀ (l : List Vec3) (q : ℚ) (p : Vec3),
    p ∈ l → g p ≤ l.foldl (fun m p => max m (g p)) q := by
  intro l
  induction l with
  | nil => intro q p hp; cases hp
  | cons hd tl ih =>
      intro q p hp
      simp only [List.foldl_cons]
      rcases List.mem_cons.mp hp with h | h
      · subst h
        exact le_trans (le_max_right _ _) (qfoldMax_init_le g tl _)
      · exact ih _ p h

lemma qfoldMin_attained (g : Vec3 → ℚ) : ∀ (l : List Vec3) (q : ℚ),
    l.foldl (fun m p => min m (g p)) q = q ∨
      ∃ p ∈ l, l.foldl (fun m p => min m (g p)) q = g p := by
  intro l
  induction l with
  | nil => intro q; exact Or.inl rfl
  | cons hd tl ih =>
      intro q
      simp only [List.foldl_cons]
      rcases ih (min q (g hd)) with h | ⟨p, hp, h⟩
      · rcases min_choice q (g hd) with hm | hm
        · exact Or.inl (h.trans hm)
        · exact Or.inr ⟨hd, List.mem_cons_self _ _, h.trans hm⟩
      · exact Or.inr ⟨p, List.mem_cons_of_mem _ hp, h⟩

lemma qfoldMax_attained (g : Vec3 → ℚ) : ∀ (l : List Vec3) (q : ℚ),
    l.foldl (fun m p => max m (g p)) q = q ∨
      ∃ p ∈ l, l.foldl (fun m p => max m (g p)) q = g p := by
  intro l
  induction l with
  | nil => intro q; exact Or.inl rfl
  | cons hd tl ih =>
      intro q
      simp only [List.foldl_cons]
      rcases ih (max q (g hd)) with h | ⟨p, hp, h⟩
      · rcases max_choice q (g hd) with hm | hm
        · exact Or.inl (h.trans hm)
        · exact Or.inr ⟨hd, List.mem_cons_self _ _, h.trans hm⟩
      · exact Or.inr ⟨p, List.mem_cons_of_mem _ hp, h⟩

/-! ### Projections of non-empty bodies collapse to finite rational folds -/

lemma project_fst (b : Body) (n : Vec3) (p0 : Vec3) (tl : List Vec3)
    (h : b.vertices = p0 :: tl) :
    (project b n).1 = XF.fin (tl.foldl (fun m p => min m (dot p n)) (dot p0 n)) := by
  simp only [project, h, List.foldl_cons, xmin_top]
  exact foldMin_fin (fun p => dot p n) tl (dot p0 n)

lemma project_snd (b : Body) (n : Vec3) (p0 : Vec3) (tl : List Vec3)
    (h : b.vertices = p0 :: tl) :
    (project b n).2 = XF.fin (tl.foldl (fun m p => max m (dot p n)) (dot p0 n)) := by
  simp only [project, h, List.foldl_cons, xmax_bot]
  exact foldMax_fin (fun p => dot p n) tl (dot p0 n)

lemma dot_zero_axis (p : Vec3) : dot p ⟨0, 0, 0⟩ = 0 := by
  simp [dot]

lemma qfoldMin_zero : ∀ (l : List Vec3),
    l.foldl (fun m (_ : Vec3) => min m (0 : ℚ)) 0 = 0 := by
  intro l
  induction l with
  | nil => rfl
  | cons hd tl ih => simpa using ih

lemma qfoldMax_zero : ∀ (l : List Vec3),
    l.foldl (fun m (_ : Vec3) => max m (0 : ℚ)) 0 = 0 := by
  intro l
  induction l with
  | nil => rfl
  | cons hd tl ih => simpa using ih

lemma project_zero_axis (b : Body) (hb : b.vertices ≠ []) :
    project b ⟨0, 0, 0⟩ = (XF.fin 0, XF.fin 0) := by
  obtain ⟨p0, tl, hv⟩ := List.exists_cons_of_ne_nil hb
  have hf := project_fst b ⟨0, 0, 0⟩ p0 tl hv
  have hs := project_snd b ⟨0, 0, 0⟩ p0 tl hv
  simp only [dot_zero_axis] at hf hs
  rw [qfoldMin_zero tl] at hf
  rw [qfoldMax_zero tl] at hs
  exact Prod.ext_iff.mpr ⟨hf, hs⟩

/-- C2: for a body with non-empty `vertices` and any axis `n`, `project`
returns the pair `(min, max)` where the first component is attained at the
dot product of some vertex and bounds all of them from below, and the second is
attained and bounds all of them from above — the closed interval of the
projected vertex set. -/
theorem project_minmax (b : Body) (n : Vec3) (h : b.vertices ≠ []) :
    ((∃ p ∈ b.vertices, (project b n).1 = XF.fin (dot p n)) ∧
      ∀ p ∈ b.vertices, (project b n).1 ≤ XF.fin (dot p n)) ∧
    ((∃ p ∈ b.vertices, (project b n).2 = XF.fin (dot p n)) ∧
      ∀ p ∈ b.vertices, XF.fin (dot p n) ≤ (project b n).2) := by
  obtain ⟨p0, tl, hv⟩ := List.exists_cons_of_ne_nil h
  constructor
  · rw [project_fst b n p0 tl hv]
    constructor
    · rcases qfoldMin_attained (fun p => dot p n) tl (dot p0 n) with hk | ⟨p, hp, hk⟩
      · exact ⟨p0, by rw [hv]; exact List.mem_cons_self _ _, by rw [hk]⟩
      · exact ⟨p, by rw [hv]; exact List.mem_cons_of_mem _ hp, by rw [hk]⟩
    · intro p hp
      rw [hv] at hp
      rw [xfin_le]
      rcases List.mem_cons.mp hp with h1 | h1
      · subst h1; exact qfoldMin_le_init _ tl _
      · exact qfoldMin_le_mem _ tl _ p h1
  · rw [project_snd b n p0 tl hv]
    constructor
    · rcases qfoldMax_attained (fun p => dot p n) tl (dot p0 n) with hk | ⟨p, hp, hk⟩
      · exact ⟨p0, by rw [hv]; exact List.mem_cons_self _ _, by rw [hk]⟩
      · exact ⟨p, by rw [hv]; exact List.mem_cons_of_mem _ hp, by rw [hk]⟩
    · intro p hp
      rw [hv] at hp
      rw [xfin_le]
      rcases List.mem_cons.mp hp with h1 | h1
      · subst h1; exact qfoldMax_init_le _ tl _
      · exact qfoldMax_mem_le _ tl _ p h1

/-- Concrete input used by the witnesses below. -/
def wBody : Body := ⟨[⟨0, 0, 0⟩, ⟨1, 2, 3⟩], [⟨1, 0, 0⟩], [⟨1, 0, 0⟩]⟩

/-- Witness for C2 at a concrete two-vertex body and the axis `(1,0,0)`. -/
theorem project_minmax_app :
    wBody.vertices ≠ [] ∧
    (((∃ p ∈ wBody.vertices, (project wBody ⟨1, 0, 0⟩).1 = XF.fin (dot p ⟨1, 0, 0⟩)) ∧
      ∀ p ∈ wBody.vertices, (project wBody ⟨1, 0, 0⟩).1 ≤ XF.fin (dot p ⟨1, 0, 0⟩)) ∧
    ((∃ p ∈ wBody.vertices, (project wBody ⟨1, 0, 0⟩).2 = XF.fin (dot p ⟨1, 0, 0⟩)) ∧
      ∀ p ∈ wBody.vertices, XF.fin (dot p ⟨1, 0, 0⟩) ≤ (project wBody ⟨1, 0, 0⟩).2)) :=
  ⟨by decide, project_minmax wBody ⟨1, 0, 0⟩ (by decide)⟩

/-- C5: for two bodies with non-empty vertex sets, a zero (degenerate) axis —
as arises from the cross product of parallel edge directions — projects both
bodies to the collapsed interval `[0, 0]`, and the per-axis overlap check
along it passes, so it can never cause `intersect` to report separation. -/
theorem zero_axis_trivially_passes (b1 b2 : Body)
    (h1 : b1.vertices ≠ []) (h2 : b2.vertices ≠ []) :
    project b1 ⟨0, 0, 0⟩ = (XF.fin 0, XF.fin 0) ∧
    project b2 ⟨0, 0, 0⟩ = (XF.fin 0, XF.fin 0) ∧
    intersect_along b1 b2 ⟨0, 0, 0⟩ = true := by
  refine ⟨project_zero_axis b1 h1, project_zero_axis b2 h2, ?_⟩
  simp [intersect_along, project_zero_axis b1 h1, project_zero_axis b2 h2]

/-- Witness for C5 at two concrete bodies. -/
theorem zero_axis_trivially_passes_app :
    (wBody.vertices ≠ [] ∧ (Body.mk [⟨5, 5, 5⟩] [] []).vertices ≠ []) ∧
    (project wBody ⟨0, 0, 0⟩ = (XF.fin 0, XF.fin 0) ∧
     project (Body.mk [⟨5, 5, 5⟩] [] []) ⟨0, 0, 0⟩ = (XF.fin 0, XF.fin 0) ∧
     intersect_along wBody (Body.mk [⟨5, 5, 5⟩] [] []) ⟨0, 0, 0⟩ = true) :=
  ⟨⟨by decide, by decide⟩,
    zero_axis_trivially_passes wBody (Body.mk [⟨5, 5, 5⟩] [] []) (by decide) (by decide)⟩

/-- C6: a body with a non-empty vertex set always intersects itself — along
every candidate axis the projected interval of `A` overlaps itself. -/
theorem intersect_self (A : Body) (h : A.vertices ≠ []) : intersect A A = true := by
  have key : ∀ n : Vec3, intersect_along A A n = true := by
    intro n
    obtain ⟨p0, tl, hv⟩ := List.exists_cons_of_ne_nil h
    have hle : (project A n).1 ≤ (project A n).2 := by
      rw [project_fst A n p0 tl hv, project_snd A n p0 tl hv, xfin_le]
      exact le_trans (qfoldMin_le_init _ tl _) (qfoldMax_init_le _ tl _)
    simp [intersect_along, hle]
  simp only [intersect, Bool.and_eq_true, List.all_eq_true]
  exact ⟨⟨fun n _ => key n, fun n _ => key n⟩, fun e1 _ e2 _ => key _⟩

/-- Witness for C6 at a concrete body. -/
theorem intersect_self_app : wBody.vertices ≠ [] ∧ intersect wBody wBody = true :=
  ⟨by decide, intersect_self wBody (by decide)⟩

/-! ### C1: the axis iteration order of `intersect` -/

/-- The SAT axis list in the order the specification prescribes: all face
normals of `b1`, then all face normals of `b2`, then every pairwise cross
product of the edge directions of `b1` with the edge directions of `b2`. -/
def specAxes (b1 b2 : Body) : List Vec3 :=
  b1.face_normals ++ b2.face_normals ++
    b1.edge_directions.flatMap (fun e1 =>
      b2.edge_directions.map (fun e2 => cross e1 e2))

/-- C1: `intersect` is exactly the short-circuiting conjunction of the
per-axis overlap test over `specAxes b1 b2` in that order — it returns
`false` at the first axis whose closed-interval overlap test fails and
`true` when every axis passes. -/
theorem intersect_axis_order (b1 b2 : Body) :
    intersect b1 b2 = (specAxes b1 b2).all (fun n => intersect_along b1 b2 n) := by
  simp only [specAxes, List.all_append, List.all_flatMap, List.all_map, intersect,
    Function.comp_def]

/-! ### C7: `project` on an empty vertex list -/

/-- C7 counterexample: far from failing fast, `project` applied to a body with
an empty `vertices` list is a total function that silently returns the
degenerate interval `(+inf, -inf)` — the untouched fold initialisers. -/
theorem project_empty_counterexample :
    project (Body.mk [] [] []) ⟨1, 0, 0⟩ = ((⊤ : XF), (⊥ : XF)) := rfl

/-- C7 (amended): `project` performs no emptiness check at all; on any body
whose `vertices` sequence is empty it silently returns the degenerate
interval `(min, max) = (+inf, -inf)`. -/
theorem project_empty_silent (b : Body) (n : Vec3) (h : b.vertices = []) :
    project b n = ((⊤ : XF), (⊥ : XF)) := by
  simp [project, h]

/-- Witness for the amended C7 at a concrete empty body. -/
theorem project_empty_silent_app :
    (Body.mk [] [] []).vertices = [] ∧
    project (Body.mk [] [] []) ⟨0, 0, 1⟩ = ((⊤ : XF), (⊥ : XF)) :=
  ⟨rfl, project_empty_silent (Body.mk [] [] []) ⟨0, 0, 1⟩ rfl⟩

/-! ### C3: symmetry of `intersect` -/

lemma dot_neg_right (p n : Vec3) : dot p (Vec3.neg n) = -(dot p n) := by
  simp only [dot, Vec3.neg]
  ring

lemma cross_antisymm (a b : Vec3) : cross b a = Vec3.neg (cross a b) := by
  simp only [cross, Vec3.neg, Vec3.mk.injEq]
  refine ⟨by ring, by ring, by ring⟩

lemma qfoldMin_neg (n : Vec3) : ∀ (l : List Vec3) (q : ℚ),
    l.foldl (fun m p => min m (dot p (Vec3.neg n))) (-q)
      = -(l.foldl (fun m p => max m (dot p n)) q) := by
  intro l
  induction l with
  | nil => intro q; rfl
  | cons hd tl ih =>
      intro q
      simp only [List.foldl_cons]
      rw [dot_neg_right hd n, min_neg_neg]
      exact ih (max q (dot hd n))

lemma qfoldMax_neg (n : Vec3) : ∀ (l : List Vec3) (q : ℚ),
    l.foldl (fun m p => max m (dot p (Vec3.neg n))) (-q)
      = -(l.foldl (fun m p => min m (dot p n)) q) := by
  intro l
  induction l with
  | nil => intro q; rfl
  | cons hd tl ih =>
      intro q
      simp only [List.foldl_cons]
      rw [dot_neg_right hd n, max_neg_neg]
      exact ih (min q (dot hd n))

lemma intersect_along_comm (b1 b2 : Body) (n : Vec3) :
    intersect_along b2 b1 n = intersect_along b1 b2 n := by
  simp only [intersect_along]
  exact Bool.and_comm _ _

lemma intersect_along_neg (b1 b2 : Body) (n : Vec3)
    (h1 : b1.vertices ≠ []) (h2 : b2.vertices ≠ []) :
    intersect_along b1 b2 (Vec3.neg n) = intersect_along b1 b2 n := by
  obtain ⟨p0, tl, hv1⟩ := List.exists_cons_of_ne_nil h1
  obtain ⟨q0, sl, hv2⟩ := List.exists_cons_of_ne_nil h2
  have f1n := project_fst b1 (Vec3.neg n) p0 tl hv1
  have s1n := project_snd b1 (Vec3.neg n) p0 tl hv1
  have f2n := project_fst b2 (Vec3.neg n) q0 sl hv2
  have s2n := project_snd b2 (Vec3.neg n) q0 sl hv2
  rw [dot_neg_right, qfoldMin_neg n tl] at f1n
  rw [dot_neg_right, qfoldMax_neg n tl] at s1n
  rw [dot_neg_right, qfoldMin_neg n sl] at f2n
  rw [dot_neg_right, qfoldMax_neg n sl] at s2n
  simp only [intersect_along, f1n, s1n, f2n, s2n,
    project_fst b1 n p0 tl hv1, project_snd b1 n p0 tl hv1,
    project_fst b2 n q0 sl hv2, project_snd b2 n q0 sl hv2,
    xfin_le, neg_le_neg_iff]
  exact Bool.and_comm _ _

/-- C3: for two bodies satisfying the shape contract (non-empty vertex
lists), `intersect` is symmetric in its arguments: swapping them never
changes the boolean result, even though the axis iteration order differs
and the cross-product axes are negated. -/
theorem intersect_comm (b1 b2 : Body)
    (h1 : b1.vertices ≠ []) (h2 : b2.vertices ≠ []) :
    intersect b1 b2 = intersect b2 b1 := by
  have hIff : intersect b1 b2 = true ↔ intersect b2 b1 = true := by
    simp only [intersect, Bool.and_eq_true, List.all_eq_true]
    constructor
    · rintro ⟨⟨hA, hB⟩, hE⟩
      refine ⟨⟨fun n hn => ?_, fun n hn => ?_⟩, fun e2 he2 e1 he1 => ?_⟩
      · rw [intersect_along_comm]; exact hB n hn
      · rw [intersect_along_comm]; exact hA n hn
      · rw [intersect_along_comm, cross_antisymm e1 e2,
          intersect_along_neg b1 b2 _ h1 h2]
        exact hE e1 he1 e2 he2
    · rintro ⟨⟨hA, hB⟩, hE⟩
      refine ⟨⟨fun n hn => ?_, fun n hn => ?_⟩, fun e1 he1 e2 he2 => ?_⟩
      · rw [← intersect_along_comm]; exact hB n hn
      · rw [← intersect_along_comm]; exact hA n hn
      · have hh := hE e2 he2 e1 he1
        rw [intersect_along_comm, cross_antisymm e1 e2,
          intersect_along_neg b1 b2 _ h1 h2] at hh
        exact hh
  exact Bool.eq_iff_iff.mpr hIff

/-- Witness for C3 at two concrete bodies. -/
theorem intersect_comm_app :
    (wBody.vertices ≠ [] ∧ (mkAabb ⟨0, 0, 0⟩ ⟨1, 1, 1⟩).vertices ≠ []) ∧
    intersect wBody (mkAabb ⟨0, 0, 0⟩ ⟨1, 1, 1⟩) =
      intersect (mkAabb ⟨0, 0, 0⟩ ⟨1, 1, 1⟩) wBody :=
  ⟨⟨by decide, by decide⟩,
    intersect_comm wBody (mkAabb ⟨0, 0, 0⟩ ⟨1, 1, 1⟩) (by decide) (by decide)⟩

/-! ### Projections of an `aabb` along the world axes -/

lemma mkAabb_vertices (a b : Vec3) : (mkAabb a b).vertices =
    [⟨a.x, a.y, a.z⟩, ⟨b.x, a.y, a.z⟩, ⟨a.x, b.y, a.z⟩, ⟨b.x, b.y, a.z⟩,
     ⟨a.x, a.y, b.z⟩, ⟨b.x, a.y, b.z⟩, ⟨a.x, b.y, b.z⟩, ⟨b.x, b.y, b.z⟩] := rfl

lemma aabb_proj_x (a b : Vec3) (h : a.x ≤ b.x) :
    project (mkAabb a b) ⟨1, 0, 0⟩ = (XF.fin a.x, XF.fin b.x) := by
  have hf := project_fst (mkAabb a b) ⟨1, 0, 0⟩ _ _ (mkAabb_vertices a b)
  have hs := project_snd (mkAabb a b) ⟨1, 0, 0⟩ _ _ (mkAabb_vertices a b)
  simp only [dot, List.foldl_cons, List.foldl_nil] at hf hs
  norm_num at hf hs
  rw [Prod.ext_iff]
  exact ⟨by rw [hf, inf_eq_left.mpr h], by rw [hs, sup_eq_right.mpr h]⟩

lemma aabb_proj_y (a b : Vec3) (h : a.y ≤ b.y) :
    project (mkAabb a b) ⟨0, 1, 0⟩ = (XF.fin a.y, XF.fin b.y) := by
  have hf := project_fst (mkAabb a b) ⟨0, 1, 0⟩ _ _ (mkAabb_vertices a b)
  have hs := project_snd (mkAabb a b) ⟨0, 1, 0⟩ _ _ (mkAabb_vertices a b)
  simp only [dot, List.foldl_cons, List.foldl_nil] at hf hs
  norm_num at hf hs
  rw [Prod.ext_iff]
  exact ⟨by rw [hf, inf_eq_left.mpr h], by rw [hs, sup_eq_right.mpr h]⟩

lemma aabb_proj_z (a b : Vec3) (h : a.z ≤ b.z) :
    project (mkAabb a b) ⟨0, 0, 1⟩ = (XF.fin a.z, XF.fin b.z) := by
  have hf := project_fst (mkAabb a b) ⟨0, 0, 1⟩ _ _ (mkAabb_vertices a b)
  have hs := project_snd (mkAabb a b) ⟨0, 0, 1⟩ _ _ (mkAabb_vertices a b)
  simp only [dot, List.foldl_cons, List.foldl_nil] at hf hs
  norm_num at hf hs
  rw [Prod.ext_iff]
  exact ⟨by rw [hf, inf_eq_left.mpr h], by rw [hs, sup_eq_right.mpr h]⟩

lemma aabb_proj_nx (a b : Vec3) (h : a.x ≤ b.x) :
    project (mkAabb a b) ⟨-1, 0, 0⟩ = (XF.fin (-b.x), XF.fin (-a.x)) := by
  have hf := project_fst (mkAabb a b) ⟨-1, 0, 0⟩ _ _ (mkAabb_vertices a b)
  have hs := project_snd (mkAabb a b) ⟨-1, 0, 0⟩ _ _ (mkAabb_vertices a b)
  simp only [dot, List.foldl_cons, List.foldl_nil] at hf hs
  norm_num at hf hs
  rw [Prod.ext_iff]
  exact ⟨by rw [hf, inf_eq_right.mpr (neg_le_neg h)],
    by rw [hs, sup_eq_left.mpr (neg_le_neg h)]⟩

lemma aabb_proj_ny (a b : Vec3) (h : a.y ≤ b.y) :
    project (mkAabb a b) ⟨0, -1, 0⟩ = (XF.fin (-b.y), XF.fin (-a.y)) := by
  have hf := project_fst (mkAabb a b) ⟨0, -1, 0⟩ _ _ (mkAabb_vertices a b)
  have hs := project_snd (mkAabb a b) ⟨0, -1, 0⟩ _ _ (mkAabb_vertices a b)
  simp only [dot, List.foldl_cons, List.foldl_nil] at hf hs
  norm_num at hf hs
  rw [Prod.ext_iff]
  exact ⟨by rw [hf, inf_eq_right.mpr (neg_le_neg h)],
    by rw [hs, sup_eq_left.mpr (neg_le_neg h)]⟩

lemma aabb_proj_nz (a b : Vec3) (h : a.z ≤ b.z) :
    project (mkAabb a b) ⟨0, 0, -1⟩ = (XF.fin (-b.z), XF.fin (-a.z)) := by
  have hf := project_fst (mkAabb a b) ⟨0, 0, -1⟩ _ _ (mkAabb_vertices a b)
  have hs := project_snd (mkAabb a b) ⟨0, 0, -1⟩ _ _ (mkAabb_vertices a b)
  simp only [dot, List.foldl_cons, List.foldl_nil] at hf hs
  norm_num at hf hs
  rw [Prod.ext_iff]
  exact ⟨by rw [hf, inf_eq_right.mpr (neg_le_neg h)],
    by rw [hs, sup_eq_left.mpr (neg_le_neg h)]⟩

/-! ### The SAT test on two boxes reduces to three interval-overlap tests -/

lemma ia_true_iff {b1 b2 : Body} {n : Vec3} {p q r s : ℚ}
    (h1 : project b1 n = (XF.fin p, XF.fin q))
    (h2 : project b2 n = (XF.fin r, XF.fin s)) :
    (intersect_along b1 b2 n = true) ↔ (p ≤ s ∧ r ≤ q) := by
  simp [intersect_along, h1, h2, xfin_le]

lemma aabb_intersect_char (a b c d : Vec3) (hab : wf a b) (hcd : wf c d) :
    intersect (mkAabb a b) (mkAabb c d) = true ↔
      ((a.x ≤ d.x ∧ c.x ≤ b.x) ∧ (a.y ≤ d.y ∧ c.y ≤ b.y) ∧
        (a.z ≤ d.z ∧ c.z ≤ b.z)) := by
  obtain ⟨hx1, hy1, hz1⟩ := hab
  obtain ⟨hx2, hy2, hz2⟩ := hcd
  have hfn1 : (mkAabb a b).face_normals = [⟨1, 0, 0⟩, ⟨0, 1, 0⟩, ⟨0, 0, 1⟩] := rfl
  have hfn2 : (mkAabb c d).face_normals = [⟨1, 0, 0⟩, ⟨0, 1, 0⟩, ⟨0, 0, 1⟩] := rfl
  have hed1 : (mkAabb a b).edge_directions = [⟨1, 0, 0⟩, ⟨0, 1, 0⟩, ⟨0, 0, 1⟩] := rfl
  have hed2 : (mkAabb c d).edge_directions = [⟨1, 0, 0⟩, ⟨0, 1, 0⟩, ⟨0, 0, 1⟩] := rfl
  rw [intersect, Bool.and_eq_true, Bool.and_eq_true, hfn1, hfn2, hed1, hed2]
  simp only [List.all_cons, List.all_nil, Bool.and_eq_true, Bool.and_true]
  norm_num [cross]
  rw [ia_true_iff (aabb_proj_x a b hx1) (aabb_proj_x c d hx2),
    ia_true_iff (aabb_proj_y a b hy1) (aabb_proj_y c d hy2),
    ia_true_iff (aabb_proj_z a b hz1) (aabb_proj_z c d hz2),
    ia_true_iff (project_zero_axis (mkAabb a b) (by rw [mkAabb_vertices]; simp))
      (project_zero_axis (mkAabb c d) (by rw [mkAabb_vertices]; simp)),
    ia_true_iff (aabb_proj_nx a b hx1) (aabb_proj_nx c d hx2),
    ia_true_iff (aabb_proj_ny a b hy1) (aabb_proj_ny c d hy2),
    ia_true_iff (aabb_proj_nz a b hz1) (aabb_proj_nz c d hz2)]
  simp only [neg_le_neg_iff, le_refl, and_true, true_and]
  tauto

/-- C10: on two well-formed boxes the generic SAT test coincides with the
naive per-coordinate closed-interval overlap test — the nine edge-cross
axes add no separating power beyond the three world-axis face normals. -/
theorem intersect_aabb_iff_interval_overlap (a b c d : Vec3)
    (hab : wf a b) (hcd : wf c d) :
    intersect (mkAabb a b) (mkAabb c d) = true ↔
      ((a.x ≤ d.x ∧ c.x ≤ b.x) ∧ (a.y ≤ d.y ∧ c.y ≤ b.y) ∧
        (a.z ≤ d.z ∧ c.z ≤ b.z)) :=
  aabb_intersect_char a b c d hab hcd

/-- Witness for C10 at two concrete boxes. -/
theorem intersect_aabb_iff_interval_overlap_app :
    (wf ⟨0, 0, 0⟩ ⟨1, 1, 1⟩ ∧ wf ⟨2, 0, 0⟩ ⟨3, 1, 1⟩) ∧
    (intersect (mkAabb ⟨0, 0, 0⟩ ⟨1, 1, 1⟩) (mkAabb ⟨2, 0, 0⟩ ⟨3, 1, 1⟩) = true ↔
      ((0 : ℚ) ≤ 3 ∧ (2 : ℚ) ≤ 1) ∧ ((0 : ℚ) ≤ 1 ∧ (0 : ℚ) ≤ 1) ∧
        ((0 : ℚ) ≤ 1 ∧ (0 : ℚ) ≤ 1)) :=
  ⟨⟨by decide, by decide⟩,
    intersect_aabb_iff_interval_overlap ⟨0, 0, 0⟩ ⟨1, 1, 1⟩ ⟨2, 0, 0⟩ ⟨3, 1, 1⟩
      (by decide) (by decide)⟩

/-- C4: `intersect` on boxes has closed-interval boundary semantics: strict
separation along any single world axis yields `false`; touching at exactly
one boundary face (with the other axes overlapping) yields `true`; and the
two literal examples of the specification evaluate to `false` and `true`. -/
theorem intersect_aabb_boundary_semantics :
    (∀ a b c d : Vec3, wf a b → wf c d →
      ((b.x < c.x ∨ d.x < a.x ∨ b.y < c.y ∨ d.y < a.y ∨ b.z < c.z ∨ d.z < a.z) →
        intersect (mkAabb a b) (mkAabb c d) = false) ∧
      (b.x = c.x → a.y ≤ d.y → c.y ≤ b.y → a.z ≤ d.z → c.z ≤ b.z →
        intersect (mkAabb a b) (mkAabb c d) = true)) ∧
    intersect (mkAabb ⟨0, 0, 0⟩ ⟨1, 1, 1⟩) (mkAabb ⟨2, 0, 0⟩ ⟨3, 1, 1⟩) = false ∧
    intersect (mkAabb ⟨0, 0, 0⟩ ⟨1, 1, 1⟩)
      (mkAabb ⟨1/2, 0, 0⟩ ⟨3/2, 1, 1⟩) = true := by
  refine ⟨?_, ?_, ?_⟩
  · intro a b c d hab hcd
    constructor
    · intro disj
      cases hI : intersect (mkAabb a b) (mkAabb c d)
      · rfl
      · exfalso
        obtain ⟨⟨px1, px2⟩, ⟨py1, py2⟩, ⟨pz1, pz2⟩⟩ :=
          (aabb_intersect_char a b c d hab hcd).mp hI
        rcases disj with h | h | h | h | h | h <;> linarith
    · intro ht hy1 hy2 hz1 hz2
      obtain ⟨hx1, -, -⟩ := id hab
      obtain ⟨hx2, -, -⟩ := id hcd
      exact (aabb_intersect_char a b c d hab hcd).mpr
        ⟨⟨by linarith, by linarith⟩, ⟨hy1, hy2⟩, ⟨hz1, hz2⟩⟩
  · cases hI : intersect (mkAabb ⟨0, 0, 0⟩ ⟨1, 1, 1⟩) (mkAabb ⟨2, 0, 0⟩ ⟨3, 1, 1⟩)
    · rfl
    · exfalso
      obtain ⟨⟨_, px2⟩, _, _⟩ :=
        (aabb_intersect_char ⟨0, 0, 0⟩ ⟨1, 1, 1⟩ ⟨2, 0, 0⟩ ⟨3, 1, 1⟩
          (by decide) (by decide)).mp hI
      norm_num at px2
  · exact (aabb_intersect_char ⟨0, 0, 0⟩ ⟨1, 1, 1⟩ ⟨1/2, 0, 0⟩ ⟨3/2, 1, 1⟩
      (by norm_num [wf]) (by norm_num [wf])).mpr (by norm_num)

/-- Witness for C4: the general separation clause applied at two concrete
disjoint boxes. -/
theorem intersect_aabb_boundary_semantics_app :
    (wf ⟨0, 0, 0⟩ ⟨1, 1, 1⟩ ∧ wf ⟨2, 2, 2⟩ ⟨3, 3, 3⟩ ∧ (1 : ℚ) < 2) ∧
    intersect (mkAabb ⟨0, 0, 0⟩ ⟨1, 1, 1⟩) (mkAabb ⟨2, 2, 2⟩ ⟨3, 3, 3⟩) = false :=
  ⟨⟨by decide, by decide, by decide⟩,
    (intersect_aabb_boundary_semantics.1 ⟨0, 0, 0⟩ ⟨1, 1, 1⟩ ⟨2, 2, 2⟩ ⟨3, 3, 3⟩
      (by decide) (by decide)).1 (Or.inl (by decide))⟩

/-! ### C8: the shape exposed by the `aabb` constructor -/

/-- C8: a box built from corners `mn`, `mx` (with `mn ≤ mx` per axis) exposes
exactly 8 vertices — vertex `i` takes the `max` coordinate on axis `k`
exactly when bit `k` of `i` is set (x = bit 0, y = bit 1, z = bit 2) — and
exactly the three unit world axes as face normals and as edge directions. -/
theorem mkAabb_spec (mn mx : Vec3) (h : wf mn mx) :
    (mkAabb mn mx).vertices.length = 8 ∧
    (∀ i : Nat, i < 8 → (mkAabb mn mx).vertices[i]? =
      some ⟨if Nat.testBit i 0 then mx.x else mn.x,
            if Nat.testBit i 1 then mx.y else mn.y,
            if Nat.testBit i 2 then mx.z else mn.z⟩) ∧
    (mkAabb mn mx).face_normals = [⟨1, 0, 0⟩, ⟨0, 1, 0⟩, ⟨0, 0, 1⟩] ∧
    (mkAabb mn mx).edge_directions = [⟨1, 0, 0⟩, ⟨0, 1, 0⟩, ⟨0, 0, 1⟩] := by
  refine ⟨rfl, ?_, rfl, rfl⟩
  intro i hi
  interval_cases i <;> rfl

/-- Witness for C8 at a concrete box, with vertex 5 spelled out. -/
theorem mkAabb_spec_app :
    wf ⟨0, 0, 0⟩ ⟨1, 1, 1⟩ ∧
    (mkAabb ⟨0, 0, 0⟩ ⟨1, 1, 1⟩).vertices.length = 8 ∧
    (mkAabb ⟨0, 0, 0⟩ ⟨1, 1, 1⟩).vertices[5]? = some ⟨1, 0, 1⟩ ∧
    (mkAabb ⟨0, 0, 0⟩ ⟨1, 1, 1⟩).face_normals = [⟨1, 0, 0⟩, ⟨0, 1, 0⟩, ⟨0, 0, 1⟩] ∧
    (mkAabb ⟨0, 0, 0⟩ ⟨1, 1, 1⟩).edge_directions =
      [⟨1, 0, 0⟩, ⟨0, 1, 0⟩, ⟨0, 0, 1⟩] := by
  have h := mkAabb_spec ⟨0, 0, 0⟩ ⟨1, 1, 1⟩ (by decide)
  exact ⟨by decide, h.1, h.2.1 5 (by norm_num), h.2.2.1, h.2.2.2⟩

/-! ### C9: the `frustum` adapter -/

/-- `glm::mat4` over the rationals. -/
abbrev Mat4 : Type := Matrix (Fin 4) (Fin 4) ℚ

/-- `glm::inverse` on a 4×4 matrix, embedded as the adjugate formula
`det⁻¹ • adjugate`; for an invertible input this is the two-sided inverse
(proved in `frustum_spec` below). -/
def inverse4 (m : Mat4) : Mat4 := m.det⁻¹ • m.adjugate

/-- Corner `i` of the canonical clip-space cube, homogeneous: component
x/y/z is `+1` when bit 1/2/4 of `i` is set and `-1` otherwise, `w = 1`. -/
def clipCorner (i : Nat) : Fin 4 → ℚ :=
  ![if i &&& 1 ≠ 0 then 1 else -1,
    if i &&& 2 ≠ 0 then 1 else -1,
    if i &&& 4 ≠ 0 then 1 else -1,
    1]

/-- Vertex `i` of the frustum (`frustum.cpp`): transform clip corner `i` by
the inverse view-projection matrix, divide by the homogeneous `w`, keep xyz. -/
def frustumVertex (vp : Mat4) (i : Nat) : Vec3 :=
  let v := (inverse4 vp).mulVec (clipCorner i)
  ⟨v 0 / v 3, v 1 / v 3, v 2 / v 3⟩

/-- The `frustum` adapter (`frustum.cpp`): 8 inverse-transformed corners,
5 face normals from fixed corner triples, 6 edge directions from fixed
corner pairs. -/
def frustumBody (vp : Mat4) : Body :=
  let fv := frustumVertex vp
  let n := fun i0 i1 i2 => cross (fv i1 - fv i0) (fv i2 - fv i0)
  let e := fun i0 i1 => fv i1 - fv i0
  { vertices := (List.range 8).map fv
    face_normals := [n 0 1 2, n 4 0 2, n 1 5 3, n 0 4 1, n 2 3 6]
    edge_directions := [e 0 1, e 0 2, e 0 4, e 1 5, e 2 6, e 3 7] }

/-- C9: for an invertible view-projection matrix, `inverse4` really is the
two-sided inverse, and the constructed frustum exposes: 8 vertices, vertex
`i` being the image of the canonical clip corner `(±1, ±1, ±1, 1)` (sign
by bits 1/2/4 of `i`) under the inverse matrix divided componentwise by its
homogeneous `w`; exactly 5 face normals from fixed corner triples; and
exactly 6 edge directions from fixed corner pairs. -/
theorem frustum_spec (vp : Mat4) (h : vp.det ≠ 0) :
    vp * inverse4 vp = 1 ∧ inverse4 vp * vp = 1 ∧
    (frustumBody vp).vertices.length = 8 ∧
    (∀ i : Nat, i < 8 → (frustumBody vp).vertices[i]? = some
      (let v := (inverse4 vp).mulVec
        ![if Nat.testBit i 0 then 1 else -1,
          if Nat.testBit i 1 then 1 else -1,
          if Nat.testBit i 2 then 1 else -1,
          1]
       ⟨v 0 / v 3, v 1 / v 3, v 2 / v 3⟩)) ∧
    (frustumBody vp).face_normals =
      [cross (frustumVertex vp 1 - frustumVertex vp 0)
         (frustumVertex vp 2 - frustumVertex vp 0),
       cross (frustumVertex vp 0 - frustumVertex vp 4)
         (frustumVertex vp 2 - frustumVertex vp 4),
       cross (frustumVertex vp 5 - frustumVertex vp 1)
         (frustumVertex vp 3 - frustumVertex vp 1),
       cross (frustumVertex vp 4 - frustumVertex vp 0)
         (frustumVertex vp 1 - frustumVertex vp 0),
       cross (frustumVertex vp 3 - frustumVertex vp 2)
         (frustumVertex vp 6 - frustumVertex vp 2)] ∧
    (frustumBody vp).edge_directions =
      [frustumVertex vp 1 - frustumVertex vp 0,
       frustumVertex vp 2 - frustumVertex vp 0,
       frustumVertex vp 4 - frustumVertex vp 0,
       frustumVertex vp 5 - frustumVertex vp 1,
       frustumVertex vp 6 - frustumVertex vp 2,
       frustumVertex vp 7 - frustumVertex vp 3] := by
  refine ⟨?_, ?_, rfl, ?_, rfl, rfl⟩
  · rw [inverse4, Matrix.mul_smul, Matrix.mul_adjugate, smul_smul,
      inv_mul_cancel₀ h, one_smul]
  · rw [inverse4, Matrix.smul_mul, Matrix.adjugate_mul, smul_smul,
      inv_mul_cancel₀ h, one_smul]
  · intro i hi
    interval_cases i <;> rfl

/-- Witness for C9 at the identity matrix. -/
theorem frustum_spec_app :
    Matrix.det (1 : Mat4) ≠ 0 ∧ (1 : Mat4) * inverse4 1 = 1 :=
  ⟨by simp, (frustum_spec 1 (by simp)).1⟩
